import Mathlib

/-!
Verification of the `firebase-push` notification service (`src/models/firebase_push.py`).

The development shallowly embeds the `_handle_send` command pipeline: content
resolution from a preset or from direct command fields (with `<<key>>`
placeholder substitution), resolution of the FCM token list, the optional
base64-image upload with post-dispatch cleanup, the per-token dispatch loop,
and result aggregation.  External effects (blob upload, signed-URL generation,
`messaging.send`, blob deletion) are modelled by an environment of oracles for
their success or failure, and by a trace of events recording each external
call.  Python strings are modelled as `List Char`; the relevant part of
`json.loads` (strings, integers, booleans, null, arrays, objects) is modelled
by an executable recursive-descent reader; float literals and `\u` escapes are
outside the modelled fragment (a parse of those fails, where Python would
succeed, but no claim depends on such inputs).
-/

namespace FirebasePush

/-- Python strings are modelled as lists of characters. -/
abbrev Str := List Char

/-- Truthiness of a Python string: non-empty. -/
def truthyStr (s : Str) : Bool := !s.isEmpty

/-- Truthiness of an optional string field (`None` and `""` are falsy). -/
def truthyOptStr : Option Str → Bool
  | some s => !s.isEmpty
  | none => false

/-- Python values as they appear in commands and as results of `json.loads`.
Floats are not modelled (see the module comment). -/
inductive PyVal where
  | str (s : Str)
  | num (n : Int)
  | bool (b : Bool)
  | null
  | list (l : List PyVal)
  | dict (l : List (Str × PyVal))

/-- Python truthiness of a value. -/
def PyVal.truthy : PyVal → Bool
  | .str s => !s.isEmpty
  | .num n => decide (n ≠ 0)
  | .bool b => b
  | .null => false
  | .list l => !l.isEmpty
  | .dict l => !l.isEmpty

/-- Boolean test that the first list is a leading segment of the second
(Python `str.startswith`, used by the scan of `str.replace`). -/
def listPref : Str → Str → Bool
  | [], _ => true
  | _ :: _, [] => false
  | a :: as, b :: bs => a = b && listPref as bs

/-! ### Python `str.replace`

`replaceAll pat rep s` scans `s` left to right; at each position where `pat`
starts, it emits `rep` and jumps past the match, otherwise it copies one
character.  This is `s.replace(pat, rep)` for a non-empty `pat` (the code only
ever replaces `f"<<{key}>>"`, which is never empty).  A fuel parameter keeps
the recursion structural so that concrete instances evaluate by `rfl`. -/

def replaceAllFuel (pat rep : Str) : Nat → Str → Str
  | _, [] => []
  | 0, s => s
  | fuel + 1, c :: rest =>
    if listPref pat (c :: rest) then
      rep ++ replaceAllFuel pat rep fuel ((c :: rest).drop pat.length)
    else
      c :: replaceAllFuel pat rep fuel rest

/-- Python `s.replace(pat, rep)` for non-empty `pat`. -/
def replaceAll (pat rep s : Str) : Str := replaceAllFuel pat rep s.length s

/-- The placeholder form `f"<<{key}>>"` used by template substitution. -/
def placeholder (k : Str) : Str := '<' :: '<' :: (k ++ ['>', '>'])

/-- One placeholder substitution: `title.replace(f"<<{key}>>", str(value))`.
Template-variable values are modelled after their `str(...)` coercion. -/
def substOne (s k v : Str) : Str := replaceAll (placeholder k) v s

/-! ### The modelled fragment of `json.loads`

Used by token resolution on a string-valued `fcm_tokens` field.  Supports
strings (with the common escapes), integer numbers, `true`/`false`/`null`,
arrays and objects; float literals and `\u` escapes make the parse fail. -/

def isWsChar (c : Char) : Bool := c = ' ' || c = '\t' || c = '\n' || c = '\r'

def skipWs : Str → Str
  | [] => []
  | c :: rest => if isWsChar c then skipWs rest else c :: rest

def isDigitChar (c : Char) : Bool := '0' ≤ c && c ≤ '9'

def takeDigits : Str → Str × Str
  | [] => ([], [])
  | c :: rest =>
    if isDigitChar c then
      let r := takeDigits rest
      (c :: r.1, r.2)
    else ([], c :: rest)

def digitsToNat (ds : Str) : Nat :=
  ds.foldl (fun a c => a * 10 + (c.toNat - '0'.toNat)) 0

/-- Decode a JSON string body after the opening quote. -/
def readStrLit : Str → Option (Str × Str)
  | [] => none
  | c :: rest =>
    if c = '"' then some ([], rest)
    else if c = '\\' then
      match rest with
      | [] => none
      | e :: rest2 =>
        let dec : Option Char :=
          if e = '"' then some '"'
          else if e = '\\' then some '\\'
          else if e = '/' then some '/'
          else if e = 'n' then some '\n'
          else if e = 't' then some '\t'
          else if e = 'r' then some '\r'
          else none
        match dec with
        | some ch => (readStrLit rest2).map (fun p => (ch :: p.1, p.2))
        | none => none
    else (readStrLit rest).map (fun p => (c :: p.1, p.2))

def stripKw (w s : Str) : Option Str :=
  if listPref w s then some (s.drop w.length) else none

/-- Reject a number continued by `.`/`e`/`E` (floats are outside the model). -/
def numGuard (rest : Str) (v : PyVal) : Option (PyVal × Str) :=
  match rest with
  | c :: _ => if c = '.' || c = 'e' || c = 'E' then none else some (v, rest)
  | [] => some (v, [])

def lbrace : Char := Char.ofNat 123
def rbrace : Char := Char.ofNat 125

mutual

def readVal : Nat → Str → Option (PyVal × Str)
  | 0, _ => none
  | fuel + 1, s0 =>
    match skipWs s0 with
    | [] => none
    | c :: rest =>
      if c = '"' then (readStrLit rest).map (fun p => (PyVal.str p.1, p.2))
      else if c = '[' then
        match skipWs rest with
        | c2 :: rest2 =>
          if c2 = ']' then some (PyVal.list [], rest2)
          else (readElems fuel (c2 :: rest2)).map (fun p => (PyVal.list p.1, p.2))
        | [] => none
      else if c = lbrace then
        match skipWs rest with
        | c2 :: rest2 =>
          if c2 = rbrace then some (PyVal.dict [], rest2)
          else (readMembers fuel (c2 :: rest2)).map (fun p => (PyVal.dict p.1, p.2))
        | [] => none
      else if c = 't' then (stripKw ("rue").toList rest).map (fun r => (PyVal.bool true, r))
      else if c = 'f' then (stripKw ("alse").toList rest).map (fun r => (PyVal.bool false, r))
      else if c = 'n' then (stripKw ("ull").toList rest).map (fun r => (PyVal.null, r))
      else if c = '-' then
        match takeDigits rest with
        | ([], _) => none
        | (ds, rest2) => numGuard rest2 (PyVal.num (-(digitsToNat ds : Int)))
      else if isDigitChar c then
        match takeDigits (c :: rest) with
        | (ds, rest2) => numGuard rest2 (PyVal.num (digitsToNat ds))
      else none

def readElems : Nat → Str → Option (List PyVal × Str)
  | 0, _ => none
  | fuel + 1, s =>
    match readVal fuel s with
    | none => none
    | some (v, rest) =>
      match skipWs rest with
      | ',' :: rest2 => (readElems fuel rest2).map (fun p => (v :: p.1, p.2))
      | ']' :: rest2 => some ([v], rest2)
      | _ => none

def readMembers : Nat → Str → Option (List (Str × PyVal) × Str)
  | 0, _ => none
  | fuel + 1, s =>
    match skipWs s with
    | c :: rest =>
      if c = '"' then
        match readStrLit rest with
        | some (k, rest2) =>
          match skipWs rest2 with
          | ':' :: rest3 =>
            match readVal fuel rest3 with
            | some (v, rest4) =>
              match skipWs rest4 with
              | c2 :: rest5 =>
                if c2 = ',' then
                  (readMembers fuel rest5).map (fun p => ((k, v) :: p.1, p.2))
                else if c2 = rbrace then some ([(k, v)], rest5)
                else none
              | [] => none
            | none => none
          | _ => none
        | none => none
      else none
    | [] => none

end

/-- The modelled `json.loads`: the whole input (up to whitespace) must be
consumed. -/
def jsonLoads (s : Str) : Option PyVal :=
  match readVal (s.length + 1) s with
  | some (v, rest) => if (skipWs rest).isEmpty then some v else none
  | none => none

/-! ### Data model of the send pipeline (`FirebasePush._handle_send`) -/

/-- One configured preset message: a `dict` read with
`preset.get("title", "")`, `preset.get("body", "")`, `preset.get("image_url")`. -/
structure Preset where
  title : Str := []
  body : Str := []
  image_url : Option Str := none

/-- The service configuration installed by `reconfigure`.  The storage bucket
is modelled by whether a bucket handle is present. -/
structure Config where
  storage_bucket : Bool := false
  fcm_tokens : List PyVal := []
  preset_messages : List (Str × Preset) := []
  enforce_preset : Bool := false

/-- Oracles for the external Firebase calls made during one invocation:
`media_ok` is the outcome of the base64-decode / blob-upload / signed-URL
`try` block, `uuid` the generated unique name part, `signed_url` the signed
URL returned for the uploaded blob, `send_ok i` the outcome of the i-th
`messaging.send` call, and `delete_ok` the outcome of the final
`blob.delete()`. -/
structure Env where
  media_ok : Bool := true
  uuid : Str := []
  signed_url : Str := []
  send_ok : Nat → Bool := fun _ => true
  delete_ok : Bool := true

/-- A send command, mirroring the `command.get(...)` reads of `_handle_send`.
`title`/`body` model `command.get("title", "")` (absent ≡ `""`), `data` models
`command.get("data", {})`, `fcm_tokens` models `command.get("fcm_tokens", [])`
(absent ≡ `[]`).  Template-variable values appear after `str(...)` coercion. -/
structure SendCommand where
  preset : Option Str := none
  template_vars : List (Str × Str) := []
  title : Str := []
  body : Str := []
  image_url : Option Str := none
  media_base64 : Option Str := none
  media_mime_type : Option Str := none
  data : List (Str × Str) := []
  fcm_tokens : PyVal := .list []

/-- The error conditions `_handle_send` raises (all are a Python `Exception`;
the constructors name the spec's taxonomy). -/
inductive Err where
  | policyViolation
  | presetNotFound
  | emptyContent
  | noTokens
deriving DecidableEq

/-- The trace of external calls and logged degradations of one invocation. -/
inductive Event where
  | uploadCall (name : Str) (mime : Str)
  | mediaError
  | noBucketWarn
  | sendCall (token : PyVal)
  | skipWarn (token : PyVal)
  | deleteCall (name : Str) (ok : Bool)

/-- The response mapping built at the end of `_handle_send`. -/
structure SendResult where
  success : Bool
  sent_count : Nat
  failed_count : Nat
  sent_to_tokens : Nat
deriving DecidableEq

/-- `preset_name not in self.preset_messages` / `self.preset_messages[preset_name]`. -/
def lookupPreset : List (Str × Preset) → Str → Option Preset
  | [], _ => none
  | (n, p) :: rest, name => if n = name then some p else lookupPreset rest name

/-- The template-variable loop: for each `(key, value)` pair replace
`<<key>>` in the title, the body and — while it is truthy — the preset image
URL. -/
def applyVars : List (Str × Str) → Str × Str × Option Str → Str × Str × Option Str
  | [], acc => acc
  | (k, v) :: rest, (t, b, img) =>
    let ph := placeholder k
    let img2 : Option Str :=
      match img with
      | some u => if truthyStr u then some (replaceAll ph v u) else some u
      | none => none
    applyVars rest (replaceAll ph v t, replaceAll ph v b, img2)

/-- `processed_image_url = x` happens only under `if x:`. -/
def optTruthy (o : Option Str) : Option Str := if truthyOptStr o then o else none

/-- Content resolution (`_handle_send` lines 163-204): the enforce-preset
policy gate, then either the preset branch (lookup, template substitution)
or the direct `title`/`body`/`image_url` fields.  Returns the resolved
title, body and image URL. -/
def resolveContent (cfg : Config) (cmd : SendCommand) :
    Except Err (Str × Str × Option Str) :=
  if cfg.enforce_preset && (!truthyOptStr cmd.preset || cfg.preset_messages.isEmpty) then
    .error .policyViolation
  else if truthyOptStr cmd.preset then
    match lookupPreset cfg.preset_messages (cmd.preset.getD []) with
    | none => .error .presetNotFound
    | some p =>
      let r := applyVars cmd.template_vars (p.title, p.body, p.image_url)
      .ok (r.1, r.2.1, optTruthy r.2.2)
  else
    .ok (cmd.title, cmd.body, optTruthy cmd.image_url)

/-- The `media_base64` block (`_handle_send` lines 206-232): on a truthy
base64 payload and MIME type, either warn when no bucket is configured, or
run the upload `try` block — success yields the signed URL and marks the blob
for deletion, failure is logged and keeps the previously resolved URL.
Returns the processed image URL, the blob marked for deletion, and the
events. -/
def processMedia (bucket : Bool) (mediaOk : Bool) (uuid signedUrl : Str)
    (mb mime : Option Str) (prior : Option Str) :
    Option Str × Option Str × List Event :=
  if truthyOptStr mb && truthyOptStr mime then
    if !bucket then (prior, none, [.noBucketWarn])
    else if mediaOk then
      let name := ("push_image_").toList ++ uuid
      (some signedUrl, some name, [.uploadCall name (mime.getD [])])
    else (prior, none, [.mediaError])
  else (prior, none, [])

/-- Interpretation of a command-level `fcm_tokens` value
(`_handle_send` lines 246-261): JSON-array decode of a string (a non-list
decode is wrapped, a failed decode becomes one literal token), a native list
as-is, any other value wrapped into a one-element list. -/
def parseCmdTokens (v : PyVal) : List PyVal :=
  match v with
  | .str s =>
    match jsonLoads s with
    | some (.list l) => l
    | some j => [j]
    | none => [.str s]
  | .list l => l
  | v => [v]

/-- Token resolution (`_handle_send` lines 242-265): a truthy command value
is parsed; if the result is empty the configured defaults are used. -/
def tokenResolution (v : PyVal) (defaults : List PyVal) : List PyVal :=
  let target := if v.truthy then parseCmdTokens v else []
  if target.isEmpty then defaults else target

/-- Whether the message envelope would carry a notification block or data,
i.e. the negation of the skip condition of the dispatch loop. -/
def sendAttempted (title body : Str) (img : Option Str) (data : List (Str × Str)) : Bool :=
  truthyStr title || truthyStr body || truthyOptStr img || !data.isEmpty

/-- The dispatch loop (`_handle_send` lines 275-327): per token, build the
envelope; skip (and count as failed) a token whose envelope would carry
neither a notification block nor data; otherwise call `messaging.send`,
counting a success or catching the error and appending the token to the
failed list.  Returns the success count, the failed tokens and the events. -/
def dispatchLoop (title body : Str) (img : Option Str) (data : List (Str × Str))
    (sendOk : Nat → Bool) : Nat → List PyVal → Nat × List PyVal × List Event
  | _, [] => (0, [], [])
  | i, t :: rest =>
    let r := dispatchLoop title body img data sendOk (i + 1) rest
    let notifPresent := truthyStr title || truthyStr body || truthyOptStr img
    if !notifPresent && data.isEmpty then
      if truthyOptStr img then
        if sendOk i then (r.1 + 1, r.2.1, .sendCall t :: r.2.2)
        else (r.1, t :: r.2.1, .sendCall t :: r.2.2)
      else (r.1, t :: r.2.1, .skipWarn t :: r.2.2)
    else
      if sendOk i then (r.1 + 1, r.2.1, .sendCall t :: r.2.2)
      else (r.1, t :: r.2.1, .sendCall t :: r.2.2)

/-- The `send` command handler `_handle_send`: content resolution, the media
block, the `title or body` validation, token resolution, the dispatch loop,
result aggregation and blob cleanup.  Returns the command's outcome and the
trace of external calls. -/
def handleSend (cfg : Config) (env : Env) (cmd : SendCommand) :
    Except Err SendResult × List Event :=
  match resolveContent cfg cmd with
  | .error e => (.error e, [])
  | .ok tbi =>
    let m := processMedia cfg.storage_bucket env.media_ok env.uuid env.signed_url
      cmd.media_base64 cmd.media_mime_type tbi.2.2
    if !truthyStr tbi.1 && !truthyStr tbi.2.1 then
      (.error .emptyContent, m.2.2)
    else
      let tokens := tokenResolution cmd.fcm_tokens cfg.fcm_tokens
      if tokens.isEmpty then (.error .noTokens, m.2.2)
      else
        let d := dispatchLoop tbi.1 tbi.2.1 m.1 cmd.data env.send_ok 0 tokens
        let res : SendResult :=
          { success := decide (0 < d.1), sent_count := d.1,
            failed_count := d.2.1.length, sent_to_tokens := d.1 }
        let trC : List Event :=
          match m.2.1 with
          | some name => [.deleteCall name env.delete_ok]
          | none => []
        (.ok res, m.2.2 ++ (d.2.2 ++ trC))

/-! ### Observers and spec-side definitions used by the claims -/

def Event.isDelete : Event → Bool
  | .deleteCall _ _ => true
  | _ => false

def Event.isUpload : Event → Bool
  | .uploadCall _ _ => true
  | _ => false

/-- Number of `blob.delete()` calls recorded in a trace. -/
def countDelete (tr : List Event) : Nat := (tr.filter Event.isDelete).length

/-- Number of blob-upload calls recorded in a trace. -/
def countUpload (tr : List Event) : Nat := (tr.filter Event.isUpload).length

/-- The outcome of the i-th token of the dispatch loop: an actual delivery
attempt whose `messaging.send` succeeded. -/
def tokenOutcome (title body : Str) (img : Option Str) (data : List (Str × Str))
    (sendOk : Nat → Bool) (i : Nat) : Bool :=
  sendAttempted title body img data && sendOk i

/-- The same command without its inline image payload. -/
def dropMedia (cmd : SendCommand) : SendCommand := { cmd with media_base64 := none }

/-- The same command without its `image_url` field. -/
def dropImageUrl (cmd : SendCommand) : SendCommand := { cmd with image_url := none }

/-- The same environment with the blob-deletion outcome replaced. -/
def setDeleteOk (env : Env) (b : Bool) : Env := { env with delete_ok := b }

/-- Token resolution as used by `_handle_send`: `Err.noTokens` (an
InvalidRequest) when the final resolved list is empty. -/
def codeTokenResolution (v : PyVal) (defaults : List PyVal) : Option (List PyVal) :=
  let t := tokenResolution v defaults
  if t.isEmpty then none else some t

/-- The parse of a command-level `fcm_tokens` value in the words of the spec:
attempt JSON-array decode of a string value; on failure treat the whole
string as one literal token; a native list is used as-is; any other scalar
becomes a one-element list. -/
def specParseTokensField (v : PyVal) : List PyVal :=
  match v with
  | .str s =>
    match jsonLoads s with
    | some (.list l) => l
    | some j => [j]
    | none => [.str s]
  | .list l => l
  | v => [v]

/-- Token resolution in the words of the spec sentence: if the command field
is present and non-empty, the parse fully replaces the defaults; if absent or
empty, the configured defaults are used; `none` (InvalidRequest) if the final
resolved list is empty. -/
def specTokenResolution (v : PyVal) (defaults : List PyVal) : Option (List PyVal) :=
  let resolved := if v.truthy then specParseTokensField v else defaults
  if resolved.isEmpty then none else some resolved

/-- Token resolution in the words of the amended claim: as the spec says,
except that a present-and-truthy field whose parse yields an empty list falls
back to the configured defaults. -/
def amendedTokenResolution (v : PyVal) (defaults : List PyVal) : Option (List PyVal) :=
  let parsed := if v.truthy then specParseTokensField v else []
  let resolved := if parsed.isEmpty then defaults else parsed
  if resolved.isEmpty then none else some resolved

/-! ### Concrete instances used by counterexamples and witnesses -/

/-- A configuration with two default tokens and a `welcome` preset. -/
def cfgA : Config :=
  { fcm_tokens := [.str ("t1").toList, .str ("t2").toList],
    preset_messages := [(("welcome").toList,
      { title := ("Hi <<name>>").toList, body := ("Welcome, <<name>>!").toList })] }

/-- An environment in which every external call succeeds. -/
def envA : Env := { uuid := ("u").toList, signed_url := ("s").toList }

/-- An environment in which the image decode/upload block fails. -/
def envBad : Env := { media_ok := false }

/-- A send command with empty resolved title/body but a non-empty data
payload. -/
def cmdDataOnly : SendCommand :=
  { data := [(("k").toList, ("v").toList)], fcm_tokens := .str ("t").toList }

/-- A configuration with a storage bucket and one default token. -/
def cfgBucket : Config := { storage_bucket := true, fcm_tokens := [.str ("t").toList] }

/-- A send command carrying an inline base64 image and nothing else. -/
def cmdMediaOnly : SendCommand :=
  { media_base64 := some ("AA").toList, media_mime_type := some ("image/png").toList }

/-- A send command carrying an inline base64 image and a title. -/
def cmdMediaTitle : SendCommand :=
  { media_base64 := some ("AA").toList, media_mime_type := some ("image/png").toList,
    title := ("hello").toList }

/-- The preset-based command of the spec's first scenario. -/
def cmdWelcome : SendCommand :=
  { preset := some ("welcome").toList,
    template_vars := [(("name").toList, ("Ada").toList)] }

theorem listPref_iff (p s : Str) : listPref p s = true ↔ p <+: s := by
  induction p generalizing s with
  | nil => simp [listPref]
  | cons a as ih =>
    cases s with
    | nil =>
      simp only [listPref]
      constructor
      · intro h; cases h
      · rintro ⟨t, ht⟩; cases ht
    | cons b bs =>
      simp only [listPref, Bool.and_eq_true, decide_eq_true_eq, ih]
      constructor
      · rintro ⟨rfl, t, rfl⟩; exact ⟨t, rfl⟩
      · rintro ⟨t, ht⟩
        injection ht with h1 h2
        exact ⟨h1, t, h2⟩

theorem replaceAllFuel_nil (pat rep : Str) (f : Nat) :
    replaceAllFuel pat rep f [] = [] := by
  cases f <;> rfl

theorem replaceAllFuel_congr (pat rep : Str) (hp : pat ≠ []) :
    ∀ f1 f2 s, s.length ≤ f1 → s.length ≤ f2 →
      replaceAllFuel pat rep f1 s = replaceAllFuel pat rep f2 s := by
  intro f1
  induction f1 with
  | zero =>
    intro f2 s h1 _
    have hs : s = [] := List.length_eq_zero.mp (Nat.le_zero.mp h1)
    subst hs
    rw [replaceAllFuel_nil, replaceAllFuel_nil]
  | succ f ih =>
    intro f2 s h1 h2
    cases s with
    | nil => rw [replaceAllFuel_nil, replaceAllFuel_nil]
    | cons c rest =>
      cases f2 with
      | zero => simp at h2
      | succ f2' =>
        have hplen : 0 < pat.length := List.length_pos.mpr hp
        have hr1 : rest.length ≤ f := Nat.succ_le_succ_iff.mp h1
        have hr2 : rest.length ≤ f2' := Nat.succ_le_succ_iff.mp h2
        simp only [replaceAllFuel]
        by_cases hpp : listPref pat (c :: rest) = true
        · rw [if_pos hpp, if_pos hpp]
          have hd : ((c :: rest).drop pat.length).length ≤ rest.length := by
            simp only [List.length_drop, List.length_cons]
            omega
          rw [ih f2' _ (le_trans hd hr1) (le_trans hd hr2)]
        · rw [if_neg hpp, if_neg hpp, ih f2' rest hr1 hr2]

theorem replaceAll_nil (pat rep : Str) : replaceAll pat rep [] = [] := rfl

theorem replaceAll_cons_pos (pat rep : Str) (hp : pat ≠ []) (c : Char) (rest : Str)
    (hpre : pat <+: (c :: rest)) :
    replaceAll pat rep (c :: rest) =
      rep ++ replaceAll pat rep ((c :: rest).drop pat.length) := by
  have hb : listPref pat (c :: rest) = true := (listPref_iff pat (c :: rest)).mpr hpre
  have hplen : 0 < pat.length := List.length_pos.mpr hp
  show replaceAllFuel pat rep (rest.length + 1) (c :: rest) = _
  simp only [replaceAllFuel, hb, if_pos]
  congr 1
  have hd : ((c :: rest).drop pat.length).length ≤ rest.length := by
    simp only [List.length_drop, List.length_cons]
    omega
  exact replaceAllFuel_congr pat rep hp rest.length _ _ hd le_rfl

theorem replaceAll_cons_neg (pat rep : Str) (_hp : pat ≠ []) (c : Char) (rest : Str)
    (hpre : ¬ pat <+: (c :: rest)) :
    replaceAll pat rep (c :: rest) = c :: replaceAll pat rep rest := by
  have hb : listPref pat (c :: rest) = false := by
    cases h : listPref pat (c :: rest)
    · rfl
    · exact absurd ((listPref_iff pat (c :: rest)).mp h) hpre
  show replaceAllFuel pat rep (rest.length + 1) (c :: rest) = _
  simp only [replaceAllFuel, hb, Bool.false_eq_true, if_false]
  rfl

theorem placeholder_ne_nil (k : Str) : placeholder k ≠ [] := by
  simp [placeholder]

/-- Unmatched text is left verbatim: if the pattern occurs nowhere in `s`,
`str.replace` returns `s` unchanged. -/
theorem replaceAll_of_no_occ (pat rep : Str) (hp : pat ≠ []) :
    ∀ s, ¬ pat <:+: s → replaceAll pat rep s = s := by
  intro s
  induction s with
  | nil => intro _; rfl
  | cons c rest ih =>
    intro h
    have hnp : ¬ pat <+: (c :: rest) := by
      intro ⟨t, ht⟩
      exact h ⟨[], t, by simpa using ht⟩
    rw [replaceAll_cons_neg pat rep hp c rest hnp]
    have hnt : ¬ pat <:+: rest := by
      intro ⟨a, b, hab⟩
      exact h ⟨c :: a, b, by simp [hab]⟩
    rw [ih hnt]

/-- Occurrence elimination: an occurrence of `v` inside `x :: l` where the
character `x` does not occur in `v` is an occurrence inside `l`. -/
theorem occ_cons_elim {x : Char} {v l : Str} (h : v <:+: (x :: l)) (hx : x ∉ v) :
    v <:+: l := by
  obtain ⟨a, b, hab⟩ := h
  cases a with
  | nil =>
    cases v with
    | nil => exact ⟨[], l, by simp⟩
    | cons v0 vr =>
      simp only [List.nil_append, List.cons_append] at hab
      injection hab with h1 _
      exact absurd (h1 ▸ List.mem_cons_self v0 vr) hx
  | cons a0 ar =>
    simp only [List.cons_append] at hab
    injection hab with _ h2
    exact ⟨ar, b, h2⟩

/-- Occurrence elimination from the right: an occurrence of `v` inside
`l ++ [x]` where `x` does not occur in `v` is an occurrence inside `l`. -/
theorem occ_concat_elim {x : Char} {v l : Str} (h : v <:+: (l ++ [x])) (hx : x ∉ v) :
    v <:+: l := by
  obtain ⟨a, b, hab⟩ := h
  rcases List.eq_nil_or_concat b with rfl | ⟨b', y, rfl⟩
  · rcases List.eq_nil_or_concat v with rfl | ⟨v', y, rfl⟩
    · exact ⟨[], l, by simp⟩
    · simp only [List.concat_eq_append] at hab hx
      rw [List.append_nil, ← List.append_assoc] at hab
      obtain ⟨-, hy⟩ := List.append_inj' hab rfl
      injection hy with hy _
      exact absurd (hy ▸ (List.mem_append_right v' (List.mem_cons_self y []))) hx
  · simp only [List.concat_eq_append] at hab
    rw [← List.append_assoc] at hab
    obtain ⟨hab', -⟩ := List.append_inj' hab rfl
    exact ⟨a, b', hab'⟩

/-- An occurrence, inside a placeholder `<<k>>`, of a string containing
neither delimiter character lies inside the key `k`. -/
theorem occ_placeholder {k v : Str} (hv1 : '<' ∉ v) (hv2 : '>' ∉ v)
    (h : v <:+: placeholder k) : v <:+: k := by
  have h1 := occ_cons_elim (occ_cons_elim h hv1) hv1
  have h2 : v <:+: ((k ++ ['>']) ++ ['>']) := by
    simpa [List.append_assoc] using h1
  exact occ_concat_elim (occ_concat_elim h2 hv2) hv2

/-- Every non-empty suffix of a placeholder ends in the character `>`. -/
theorem suffix_placeholder_concat {k q : Str} (h : q <:+ placeholder k)
    (hq : q ≠ []) : ∃ q', q = q' ++ ['>'] := by
  obtain ⟨a, ha⟩ := h
  rcases List.eq_nil_or_concat q with rfl | ⟨q', y, rfl⟩
  · exact absurd rfl hq
  · simp only [List.concat_eq_append] at ha ⊢
    refine ⟨q', ?_⟩
    have hph : placeholder k = ('<' :: '<' :: (k ++ ['>'])) ++ ['>'] := by
      simp [placeholder]
    rw [hph, ← List.append_assoc] at ha
    obtain ⟨-, hy⟩ := List.append_inj' ha rfl
    injection hy with hy _
    rw [hy]

/-- If some suffix `q` of the placeholder is a prefix of the output of
`str.replace`, then `q` was already a prefix of the input: the replacement
value (delimiter-free and not a substring of the key) can never supply part of
a placeholder occurrence. -/
theorem pref_of_replaceAll_pref {k v : Str} (hv1 : '<' ∉ v) (hv2 : '>' ∉ v)
    (hvk : ¬ v <:+: k) :
    ∀ t q, q <:+ placeholder k → q ≠ [] →
      q <+: replaceAll (placeholder k) v t → q <+: t := by
  intro t
  induction t with
  | nil =>
    intro q _ hqne hpre
    obtain ⟨t1, ht1⟩ := hpre
    rw [replaceAll_nil] at ht1
    exact absurd (List.append_eq_nil.mp ht1).1 hqne
  | cons c rest ih =>
    intro q hq hqne hpre
    by_cases hpp : placeholder k <+: (c :: rest)
    · rw [replaceAll_cons_pos _ v (placeholder_ne_nil k) c rest hpp] at hpre
      rcases le_or_lt q.length v.length with hle | hlt
      · have hqv : q <+: v :=
          List.prefix_of_prefix_length_le hpre ( List.prefix_append v _) hle
        obtain ⟨q', rfl⟩ := suffix_placeholder_concat hq hqne
        exact absurd (hqv.subset (by simp)) hv2
      · have hvq : v <+: q :=
          List.prefix_of_prefix_length_le ( List.prefix_append v _) hpre
            (Nat.le_of_lt hlt)
        obtain ⟨t2, rfl⟩ := hvq
        obtain ⟨a, ha⟩ := hq
        have hocc : v <:+: placeholder k :=
          ⟨a, t2, by rw [← ha]; simp [List.append_assoc]⟩
        exact absurd (occ_placeholder hv1 hv2 hocc) hvk
    · rw [replaceAll_cons_neg _ v (placeholder_ne_nil k) c rest hpp] at hpre
      cases q with
      | nil => exact absurd rfl hqne
      | cons q0 qr =>
        obtain ⟨t1, ht1⟩ := hpre
        simp only [List.cons_append] at ht1
        injection ht1 with h1 h2
        subst h1
        cases qr with
        | nil => exact ⟨rest, rfl⟩
        | cons q1 qs =>
          have hqrs : (q1 :: qs) <:+ placeholder k := by
            obtain ⟨a, ha⟩ := hq
            exact ⟨a ++ [q0], by rw [List.append_assoc]; exact ha⟩
          obtain ⟨t2, ht2⟩ := ih (q1 :: qs) hqrs (by simp) ⟨t1, h2⟩
          exact ⟨t2, by rw [List.cons_append, ht2]⟩

/-- After `str.replace`, the placeholder occurs nowhere in the result,
provided the replacement value contains neither delimiter and is not a
substring of the key. -/
theorem replaceAll_no_new_occ {k v : Str} (hv1 : '<' ∉ v) (hv2 : '>' ∉ v)
    (hvk : ¬ v <:+: k) (s : Str) :
    ¬ placeholder k <:+: replaceAll (placeholder k) v s := by
  suffices h : ∀ n s, s.length ≤ n →
      ¬ placeholder k <:+: replaceAll (placeholder k) v s from
    h s.length s le_rfl
  intro n
  induction n with
  | zero =>
    intro s hs
    have hnil : s = [] := List.length_eq_zero.mp (Nat.le_zero.mp hs)
    subst hnil
    rw [replaceAll_nil]
    rintro ⟨a, b, hab⟩
    simp only [List.append_assoc] at hab
    exact absurd (List.append_eq_nil.mp (List.append_eq_nil.mp hab).2).1
      (placeholder_ne_nil k)
  | succ n ih =>
    intro s hs
    cases s with
    | nil =>
      rw [replaceAll_nil]
      rintro ⟨a, b, hab⟩
      simp only [List.append_assoc] at hab
      exact absurd (List.append_eq_nil.mp (List.append_eq_nil.mp hab).2).1
        (placeholder_ne_nil k)
    | cons c rest =>
      have hrest : rest.length ≤ n := Nat.succ_le_succ_iff.mp hs
      by_cases hpp : placeholder k <+: (c :: rest)
      · rw [replaceAll_cons_pos _ v (placeholder_ne_nil k) c rest hpp]
        rintro ⟨a, b, hab⟩
        simp only [List.append_assoc] at hab
        have hplen : 0 < (placeholder k).length :=
          List.length_pos.mpr (placeholder_ne_nil k)
        have hdlen : ((c :: rest).drop (placeholder k).length).length ≤ n := by
          simp only [List.length_drop, List.length_cons]
          omega
        rcases le_or_lt v.length a.length with hle | hlt
        · have hav : v <+: a :=
            List.prefix_of_prefix_length_le ( List.prefix_append v _)
              ⟨placeholder k ++ b, hab⟩ hle
          obtain ⟨a', rfl⟩ := hav
          rw [List.append_assoc] at hab
          have h2 := List.append_cancel_left hab
          exact absurd ⟨a', b, by rw [List.append_assoc]; exact h2⟩ (ih _ hdlen)
        · have hav : a <+: v :=
            List.prefix_of_prefix_length_le ⟨placeholder k ++ b, hab⟩
              ( List.prefix_append v _) (Nat.le_of_lt hlt)
          obtain ⟨v2, rfl⟩ := hav
          have hv2ne : v2 ≠ [] := by
            intro h
            rw [h, List.append_nil] at hlt
            exact absurd hlt (lt_irrefl _)
          rw [List.append_assoc] at hab
          have h2 := List.append_cancel_left hab
          cases v2 with
          | nil => exact absurd rfl hv2ne
          | cons v20 v2r =>
            have hv20 : v20 = '<' := by
              simp only [placeholder, List.cons_append] at h2
              injection h2 with h3 _
              exact h3.symm
            exact absurd
              (List.mem_append_right a (hv20 ▸ List.mem_cons_self v20 v2r)) hv1
      · rw [replaceAll_cons_neg _ v (placeholder_ne_nil k) c rest hpp]
        rintro ⟨a, b, hab⟩
        simp only [List.append_assoc] at hab
        cases a with
        | nil =>
          simp only [List.nil_append] at hab
          have hform : placeholder k ++ b =
              '<' :: (('<' :: (k ++ ['>', '>'])) ++ b) := by
            simp [placeholder]
          rw [hform] at hab
          injection hab with h1 h2
          have hpt : ('<' :: (k ++ ['>', '>'])) <:+ placeholder k :=
            ⟨['<'], rfl⟩
          obtain ⟨t2, ht2⟩ :=
            pref_of_replaceAll_pref hv1 hv2 hvk rest _ hpt (by simp) ⟨b, h2⟩
          refine absurd ⟨t2, ?_⟩ hpp
          show ('<' :: (('<' :: (k ++ ['>', '>'])) ++ t2)) = c :: rest
          rw [ht2, h1]
        | cons a0 ar =>
          simp only [List.cons_append] at hab
          injection hab with _ h2
          exact absurd ⟨ar, b, by rw [List.append_assoc]; exact h2⟩ (ih rest hrest)

/-! ### Dispatch-loop lemmas -/

/-- One step of the dispatch loop, with the branch structure normalised: the
token is skipped exactly when the envelope would carry nothing, otherwise a
delivery is attempted with outcome `sendOk i`. -/
theorem dispatchLoop_cons (title body : Str) (img : Option Str)
    (data : List (Str × Str)) (sendOk : Nat → Bool) (i : Nat) (x : PyVal)
    (xs : List PyVal) :
    dispatchLoop title body img data sendOk i (x :: xs) =
      (let r := dispatchLoop title body img data sendOk (i + 1) xs
       if sendAttempted title body img data then
         if sendOk i then (r.1 + 1, r.2.1, .sendCall x :: r.2.2)
         else (r.1, x :: r.2.1, .sendCall x :: r.2.2)
       else (r.1, x :: r.2.1, .skipWarn x :: r.2.2)) := by
  simp only [dispatchLoop, sendAttempted]
  set t := truthyStr title with ht
  set b := truthyStr body with hb
  set im := truthyOptStr img with him
  set de := data.isEmpty with hde
  clear_value t b im de
  cases t <;> cases b <;> cases im <;> cases de <;> simp [← ht, ← hb, ← him, ← hde]

/-- Every token of the loop ends in exactly one of the success count and the
failed list. -/
theorem dispatchLoop_count (title body : Str) (img : Option Str)
    (data : List (Str × Str)) (sendOk : Nat → Bool) :
    ∀ i tokens, (dispatchLoop title body img data sendOk i tokens).1 +
      (dispatchLoop title body img data sendOk i tokens).2.1.length =
      tokens.length := by
  intro i tokens
  induction tokens generalizing i with
  | nil => rfl
  | cons x xs ih =>
    have hx := ih (i + 1)
    cases ha : sendAttempted title body img data <;> cases hok : sendOk i <;>
      simp [dispatchLoop_cons, ha, hok] <;> omega

/-- Closed form of the dispatch loop: the success count and the failed list
are the two filtrations of the indexed token list by the per-token outcome. -/
theorem dispatchLoop_closed (title body : Str) (img : Option Str)
    (data : List (Str × Str)) (sendOk : Nat → Bool) :
    ∀ i tokens,
      (dispatchLoop title body img data sendOk i tokens).1 =
        ((List.enumFrom i tokens).filter
          (fun p => tokenOutcome title body img data sendOk p.1)).length ∧
      (dispatchLoop title body img data sendOk i tokens).2.1 =
        ((List.enumFrom i tokens).filter
          (fun p => !tokenOutcome title body img data sendOk p.1)).map Prod.snd := by
  intro i tokens
  induction tokens generalizing i with
  | nil => exact ⟨rfl, rfl⟩
  | cons x xs ih =>
    obtain ⟨ih1, ih2⟩ := ih (i + 1)
    cases ha : sendAttempted title body img data <;> cases hok : sendOk i <;>
      simp [dispatchLoop_cons, List.enumFrom, List.filter_cons, tokenOutcome,
        ha, hok, ih1, ih2]

/-- The dispatch loop performs no storage calls: its trace has no upload and
no deletion events. -/
theorem dispatchLoop_clean (title body : Str) (img : Option Str)
    (data : List (Str × Str)) (sendOk : Nat → Bool) :
    ∀ i tokens,
      countDelete (dispatchLoop title body img data sendOk i tokens).2.2 = 0 ∧
      countUpload (dispatchLoop title body img data sendOk i tokens).2.2 = 0 := by
  intro i tokens
  induction tokens generalizing i with
  | nil => exact ⟨rfl, rfl⟩
  | cons x xs ih =>
    obtain ⟨ih1, ih2⟩ := ih (i + 1)
    simp only [countDelete, countUpload] at ih1 ih2
    cases ha : sendAttempted title body img data <;> cases hok : sendOk i <;>
      simp only [dispatchLoop_cons, ha, hok, Bool.false_eq_true, if_true, if_false,
        countDelete, countUpload, List.filter_cons, Event.isDelete, Event.isUpload] <;>
      exact ⟨ih1, ih2⟩

/-- The media block records no deletion, and an upload event exactly when a
blob was marked for deletion. -/
theorem processMedia_counts (bucket mediaOk : Bool) (uuid su : Str)
    (mb mime prior : Option Str) :
    countDelete (processMedia bucket mediaOk uuid su mb mime prior).2.2 = 0 ∧
    countUpload (processMedia bucket mediaOk uuid su mb mime prior).2.2 =
      (match (processMedia bucket mediaOk uuid su mb mime prior).2.1 with
       | some _ => 1 | none => 0) := by
  unfold processMedia
  split_ifs <;>
    simp [countDelete, countUpload, List.filter_cons, Event.isDelete, Event.isUpload]

/-- Inversion of a completed `_handle_send` run: content resolution
succeeded, the `title or body` validation passed, the resolved token list was
non-empty, and the result and trace are the aggregation of the dispatch loop
together with the media and cleanup events. -/
theorem handleSend_ok_inv (cfg : Config) (env : Env) (cmd : SendCommand)
    (res : SendResult) (tr : List Event)
    (h : handleSend cfg env cmd = (.ok res, tr)) :
    ∃ tbi, resolveContent cfg cmd = .ok tbi ∧
      (let m := processMedia cfg.storage_bucket env.media_ok env.uuid env.signed_url
        cmd.media_base64 cmd.media_mime_type tbi.2.2
       let tokens := tokenResolution cmd.fcm_tokens cfg.fcm_tokens
       let d := dispatchLoop tbi.1 tbi.2.1 m.1 cmd.data env.send_ok 0 tokens
       (!truthyStr tbi.1 && !truthyStr tbi.2.1) = false ∧
       tokens.isEmpty = false ∧
       res = { success := decide (0 < d.1), sent_count := d.1,
               failed_count := d.2.1.length, sent_to_tokens := d.1 } ∧
       tr = m.2.2 ++ (d.2.2 ++ (match m.2.1 with
         | some name => [Event.deleteCall name env.delete_ok]
         | none => []))) := by
  cases hrc : resolveContent cfg cmd with
  | error e => simp [handleSend, hrc] at h
  | ok tbi =>
    refine ⟨tbi, rfl, ?_⟩
    simp only [handleSend, hrc] at h
    by_cases h1 : (!truthyStr tbi.1 && !truthyStr tbi.2.1) = true
    · rw [if_pos h1] at h
      simp at h
    · rw [if_neg h1] at h
      by_cases h2 : (tokenResolution cmd.fcm_tokens cfg.fcm_tokens).isEmpty = true
      · rw [if_pos h2] at h
        simp at h
      · rw [if_neg h2] at h
        rw [Prod.mk.injEq] at h
        obtain ⟨hres, htr⟩ := h
        rw [Except.ok.injEq] at hres
        exact ⟨Bool.eq_false_iff.mpr h1, Bool.eq_false_iff.mpr h2,
          hres.symm, htr.symm⟩

/-- The first projection of `handleSend` does not depend on the outcome of
the final `blob.delete()` call. -/
theorem handleSend_fst_delete_irrel (cfg : Config) (env : Env) (cmd : SendCommand)
    (b : Bool) :
    (handleSend cfg (setDeleteOk env b) cmd).1 = (handleSend cfg env cmd).1 := by
  cases hrc : resolveContent cfg cmd with
  | error e => simp [handleSend, hrc]
  | ok tbi =>
    simp only [handleSend, hrc, setDeleteOk]
    by_cases h1 : (!truthyStr tbi.1 && !truthyStr tbi.2.1) = true
    · rw [if_pos h1, if_pos h1]
    · rw [if_neg h1, if_neg h1]
      by_cases h2 : (tokenResolution cmd.fcm_tokens cfg.fcm_tokens).isEmpty = true
      · rw [if_pos h2, if_pos h2]
      · rw [if_neg h2, if_neg h2]

/-! ### The claims -/

/-- Claim C1, counterexample: the claim's rejection condition (empty resolved
title and body AND no data payload AND no image) fails on the code — a command
with empty title and body but a non-empty data payload is rejected
(`_handle_send` line 238 checks only `not title and not body`). -/
theorem C1_counterexample :
    ¬ (((handleSend cfgA envA cmdDataOnly).1 = Except.error Err.emptyContent) ↔
        (cmdDataOnly.data = [] ∧ truthyStr cmdDataOnly.title = false ∧
         truthyStr cmdDataOnly.body = false ∧ cmdDataOnly.image_url = none ∧
         cmdDataOnly.media_base64 = none)) := by
  intro hiff
  have h := (hiff.mp rfl).1
  simp [cmdDataOnly] at h

/-- Claim C1 (amended): after successful content resolution, the command is
rejected with the empty-content InvalidRequest iff the resolved title and
body are both empty — regardless of any data payload or image. -/
theorem C1_empty_iff (cfg : Config) (env : Env) (cmd : SendCommand)
    (tbi : Str × Str × Option Str) (h : resolveContent cfg cmd = .ok tbi) :
    ((handleSend cfg env cmd).1 = Except.error Err.emptyContent) ↔
      (truthyStr tbi.1 = false ∧ truthyStr tbi.2.1 = false) := by
  simp only [handleSend, h]
  by_cases h1 : (!truthyStr tbi.1 && !truthyStr tbi.2.1) = true
  · rw [if_pos h1]
    have hcomp := h1
    simp only [Bool.and_eq_true, Bool.not_eq_true'] at hcomp
    simp [hcomp.1, hcomp.2]
  · rw [if_neg h1]
    have hcomp : ¬ (truthyStr tbi.1 = false ∧ truthyStr tbi.2.1 = false) := by
      intro ⟨ha, hb⟩
      exact h1 (by simp [ha, hb])
    by_cases h2 : (tokenResolution cmd.fcm_tokens cfg.fcm_tokens).isEmpty = true
    · rw [if_pos h2]
      simp [hcomp]
    · rw [if_neg h2]
      simp [hcomp]

/-- Claim C1, witness of the amended claim at a concrete input. -/
theorem C1_witness :
    ((handleSend cfgA envA cmdDataOnly).1 = Except.error Err.emptyContent) ↔
      (truthyStr ([] : Str) = false ∧ truthyStr ([] : Str) = false) :=
  C1_empty_iff cfgA envA cmdDataOnly ([], [], none) rfl

/-- Claim C2, counterexample: an invocation whose inline image is uploaded
successfully and which is then rejected by the empty-content validation ends
with the blob never deleted — the upload count of the trace is 1 but the
deletion count is 0. -/
theorem C2_counterexample :
    (handleSend cfgBucket envA cmdMediaOnly).1 = Except.error Err.emptyContent ∧
    countUpload (handleSend cfgBucket envA cmdMediaOnly).2 = 1 ∧
    countDelete (handleSend cfgBucket envA cmdMediaOnly).2 = 0 :=
  ⟨rfl, rfl, rfl⟩

/-- Claim C2 (amended): when the invocation runs to completion and returns a
response, the uploaded blob (if any) is deleted exactly once — the deletion
count equals the upload count — and the outcome of the deletion call never
changes the returned result. -/
theorem C2_cleanup (cfg : Config) (env : Env) (cmd : SendCommand)
    (res : SendResult) (tr : List Event)
    (h : handleSend cfg env cmd = (.ok res, tr)) :
    countDelete tr = countUpload tr ∧
    ∀ b, (handleSend cfg (setDeleteOk env b) cmd).1 = .ok res := by
  obtain ⟨tbi, hrc, h1, h2, hres, htr⟩ := handleSend_ok_inv cfg env cmd res tr h
  constructor
  · subst htr
    have hm := processMedia_counts cfg.storage_bucket env.media_ok env.uuid
      env.signed_url cmd.media_base64 cmd.media_mime_type tbi.2.2
    have hd := dispatchLoop_clean tbi.1 tbi.2.1
      (processMedia cfg.storage_bucket env.media_ok env.uuid env.signed_url
        cmd.media_base64 cmd.media_mime_type tbi.2.2).1 cmd.data env.send_ok 0
      (tokenResolution cmd.fcm_tokens cfg.fcm_tokens)
    cases hblob : (processMedia cfg.storage_bucket env.media_ok env.uuid
        env.signed_url cmd.media_base64 cmd.media_mime_type tbi.2.2).2.1 with
    | none =>
      rw [hblob] at hm
      simp only [countDelete, countUpload, List.filter_append,
        List.length_append] at hm hd ⊢
      simp [hm.1, hm.2, hd.1, hd.2]
    | some name =>
      rw [hblob] at hm
      simp only [countDelete, countUpload, List.filter_append,
        List.length_append] at hm hd ⊢
      simp [hm.1, hm.2, hd.1, hd.2, Event.isDelete, Event.isUpload,
        List.filter_cons]
  · intro b
    rw [handleSend_fst_delete_irrel, h]

/-- Claim C2, witness of the amended claim at a concrete input. -/
theorem C2_witness :
    countDelete (handleSend cfgBucket envA cmdMediaTitle).2 =
      countUpload (handleSend cfgBucket envA cmdMediaTitle).2 ∧
    (handleSend cfgBucket (setDeleteOk envA false) cmdMediaTitle).1 =
      .ok ⟨true, 1, 0, 1⟩ :=
  ⟨(C2_cleanup cfgBucket envA cmdMediaTitle ⟨true, 1, 0, 1⟩ _
      (Prod.ext rfl rfl)).1,
   (C2_cleanup cfgBucket envA cmdMediaTitle ⟨true, 1, 0, 1⟩ _
      (Prod.ext rfl rfl)).2 false⟩

/-- Claim C3: for every send whose handling runs to completion, the response
satisfies `sent_count + failed_count = |resolved token list|` and
`sent_to_tokens = sent_count`. -/
theorem C3_counts (cfg : Config) (env : Env) (cmd : SendCommand)
    (res : SendResult) (h : (handleSend cfg env cmd).1 = .ok res) :
    res.sent_count + res.failed_count =
      (tokenResolution cmd.fcm_tokens cfg.fcm_tokens).length ∧
    res.sent_to_tokens = res.sent_count := by
  obtain ⟨tbi, hrc, h1, h2, hres, htr⟩ :=
    handleSend_ok_inv cfg env cmd res (handleSend cfg env cmd).2
      (Prod.ext h rfl)
  subst hres
  exact ⟨dispatchLoop_count _ _ _ _ _ 0 _, rfl⟩

/-- Claim C3, witness: the spec's preset scenario with two tokens. -/
theorem C3_witness :
    (2 : Nat) + 0 = (tokenResolution cmdWelcome.fcm_tokens cfgA.fcm_tokens).length ∧
    (2 : Nat) = 2 :=
  C3_counts cfgA envA cmdWelcome ⟨true, 2, 0, 2⟩ rfl

/-- Claim C4: for every send command that returns a response, the `success`
flag is true iff `sent_count > 0`. -/
theorem C4_success_iff (cfg : Config) (env : Env) (cmd : SendCommand)
    (res : SendResult) (h : (handleSend cfg env cmd).1 = .ok res) :
    res.success = true ↔ 0 < res.sent_count := by
  obtain ⟨tbi, hrc, h1, h2, hres, htr⟩ :=
    handleSend_ok_inv cfg env cmd res (handleSend cfg env cmd).2
      (Prod.ext h rfl)
  subst hres
  simp

/-- Claim C4, witness at a concrete completed send. -/
theorem C4_witness :
    (true = true) ↔ 0 < (2 : Nat) :=
  C4_success_iff cfgA envA cmdWelcome ⟨true, 2, 0, 2⟩ rfl

/-- Claim C5, counterexample: the string `"[]"` is a present and non-empty
`fcm_tokens` value, yet the code falls back to the configured defaults
(`_handle_send` line 264 tests the parsed list, not the raw field), while the
claim's resolution procedure would fail with InvalidRequest. -/
theorem C5_counterexample :
    specTokenResolution (.str ("[]").toList) [.str ("d").toList] = none ∧
    codeTokenResolution (.str ("[]").toList) [.str ("d").toList] =
      some [.str ("d").toList] :=
  ⟨rfl, rfl⟩

/-- Claim C5 (amended): token resolution proceeds exactly as the claim says,
except that a present-and-truthy field whose parse yields an empty list falls
back to the configured defaults instead of fully replacing them. -/
theorem C5_token_resolution (v : PyVal) (defaults : List PyVal) :
    codeTokenResolution v defaults = amendedTokenResolution v defaults := by
  have hp : specParseTokensField v = parseCmdTokens v := by cases v <;> rfl
  simp only [codeTokenResolution, amendedTokenResolution, tokenResolution, hp]

/-- Claim C6, counterexample: substitution is not idempotent per key even for
a value with no placeholder characters — replacing `<<xax>>` by `xax` in
`<<<<xax>>>>` yields the new placeholder occurrence `<<xax>>`, which a second
application rewrites again. -/
theorem C6_counterexample :
    ('<' ∉ ("xax").toList ∧ '>' ∉ ("xax").toList) ∧
    substOne (substOne ("<<<<xax>>>>").toList ("xax").toList ("xax").toList)
        ("xax").toList ("xax").toList ≠
      substOne ("<<<<xax>>>>").toList ("xax").toList ("xax").toList := by
  exact ⟨⟨by decide, by decide⟩, by decide⟩

/-- Claim C6 (amended): for a key and value free of the placeholder delimiter
characters, with the value not a substring of the key, substitution leaves
text without the placeholder verbatim, eliminates every occurrence of the
placeholder, and is idempotent per key. -/
theorem C6_substitution (k v : Str) (hv1 : '<' ∉ v) (hv2 : '>' ∉ v)
    (hvk : ¬ v <:+: k) (s : Str) :
    (¬ placeholder k <:+: s → substOne s k v = s) ∧
    ¬ placeholder k <:+: substOne s k v ∧
    substOne (substOne s k v) k v = substOne s k v :=
  ⟨fun h => replaceAll_of_no_occ (placeholder k) v (placeholder_ne_nil k) s h,
   replaceAll_no_new_occ hv1 hv2 hvk s,
   replaceAll_of_no_occ (placeholder k) v (placeholder_ne_nil k) _
     (replaceAll_no_new_occ hv1 hv2 hvk s)⟩

/-- Claim C6, witness of the amended claim at the spec's scenario values. -/
theorem C6_witness :
    substOne (substOne ("Hi <<name>>, <<other>>").toList ("name").toList
        ("Ada").toList) ("name").toList ("Ada").toList =
      substOne ("Hi <<name>>, <<other>>").toList ("name").toList ("Ada").toList :=
  (C6_substitution ("name").toList ("Ada").toList (by decide) (by decide)
    (by decide) ("Hi <<name>>, <<other>>").toList).2.2

/-- Claim C7: with `enforce_preset` and no (truthy) preset name or an empty
preset table, the command fails with the PolicyViolation before any token
resolution, upload or delivery — the trace of external calls is empty. -/
theorem C7_policy (cfg : Config) (env : Env) (cmd : SendCommand)
    (h1 : cfg.enforce_preset = true)
    (h2 : truthyOptStr cmd.preset = false ∨ cfg.preset_messages = []) :
    handleSend cfg env cmd = (.error .policyViolation, []) := by
  have hc : (cfg.enforce_preset &&
      (!truthyOptStr cmd.preset || cfg.preset_messages.isEmpty)) = true := by
    rcases h2 with h2 | h2 <;> simp [h1, h2]
  have hrc : resolveContent cfg cmd = .error .policyViolation := by
    unfold resolveContent
    rw [if_pos hc]
  simp [handleSend, hrc]

/-- Claim C7, witness at a concrete enforcing configuration. -/
theorem C7_witness :
    handleSend { enforce_preset := true } envA {} = (.error .policyViolation, []) :=
  C7_policy { enforce_preset := true } envA {} rfl (Or.inl rfl)

/-- Claim C8: every token of the resolved list is processed exactly once, in
list order, and ends in exactly one of the success count and the failed list;
a per-token delivery failure never aborts the remaining tokens. -/
theorem C8_isolation (title body : Str) (img : Option Str)
    (data : List (Str × Str)) (sendOk : Nat → Bool) (tokens : List PyVal) :
    (dispatchLoop title body img data sendOk 0 tokens).1 +
      (dispatchLoop title body img data sendOk 0 tokens).2.1.length =
      tokens.length ∧
    (dispatchLoop title body img data sendOk 0 tokens).1 =
      ((List.enumFrom 0 tokens).filter
        (fun p => tokenOutcome title body img data sendOk p.1)).length ∧
    (dispatchLoop title body img data sendOk 0 tokens).2.1 =
      ((List.enumFrom 0 tokens).filter
        (fun p => !tokenOutcome title body img data sendOk p.1)).map Prod.snd :=
  ⟨dispatchLoop_count title body img data sendOk 0 tokens,
   (dispatchLoop_closed title body img data sendOk 0 tokens).1,
   (dispatchLoop_closed title body img data sendOk 0 tokens).2⟩

/-- Claim C9: a decode/upload failure of the inline image is non-fatal — the
command behaves exactly as if no inline image had been supplied (dispatch
proceeds with the previously resolved image URL), except for the logged
media error at the start of the trace. -/
theorem C9_media_nonfatal (cfg : Config) (env : Env) (cmd : SendCommand)
    (tbi : Str × Str × Option Str)
    (hc : resolveContent cfg cmd = .ok tbi)
    (h1 : truthyOptStr cmd.media_base64 = true)
    (h2 : truthyOptStr cmd.media_mime_type = true)
    (h3 : cfg.storage_bucket = true)
    (h4 : env.media_ok = false) :
    (handleSend cfg env cmd).1 = (handleSend cfg env (dropMedia cmd)).1 ∧
    (handleSend cfg env cmd).2 =
      Event.mediaError :: (handleSend cfg env (dropMedia cmd)).2 := by
  have hc' : resolveContent cfg (dropMedia cmd) = .ok tbi := hc
  have hm1 : processMedia cfg.storage_bucket env.media_ok env.uuid env.signed_url
      cmd.media_base64 cmd.media_mime_type tbi.2.2 =
      (tbi.2.2, none, [Event.mediaError]) := by
    unfold processMedia
    rw [h1, h2, h3, h4]
    simp
  have hm2 : processMedia cfg.storage_bucket env.media_ok env.uuid env.signed_url
      (dropMedia cmd).media_base64 (dropMedia cmd).media_mime_type tbi.2.2 =
      (tbi.2.2, none, []) := by
    unfold processMedia dropMedia
    simp [truthyOptStr]
  simp only [handleSend, hc, hc', hm1, hm2]
  dsimp only [dropMedia]
  by_cases hb1 : (!truthyStr tbi.1 && !truthyStr tbi.2.1) = true
  · rw [if_pos hb1, if_pos hb1]
    exact ⟨rfl, rfl⟩
  · rw [if_neg hb1, if_neg hb1]
    by_cases hb2 : (tokenResolution cmd.fcm_tokens cfg.fcm_tokens).isEmpty = true
    · rw [if_pos hb2, if_pos hb2]
      exact ⟨rfl, rfl⟩
    · rw [if_neg hb2, if_neg hb2]
      exact ⟨rfl, rfl⟩

/-- Claim C9, witness at a concrete failing upload. -/
theorem C9_witness :
    (handleSend cfgBucket envBad cmdMediaTitle).1 =
      (handleSend cfgBucket envBad (dropMedia cmdMediaTitle)).1 ∧
    (handleSend cfgBucket envBad cmdMediaTitle).2 =
      Event.mediaError :: (handleSend cfgBucket envBad (dropMedia cmdMediaTitle)).2 :=
  C9_media_nonfatal cfgBucket envBad cmdMediaTitle (("hello").toList, [], none)
    rfl rfl rfl rfl rfl

/-- Claim C10: when a (truthy) preset name is supplied, the command-level
`image_url` field is ignored entirely — the whole invocation, result and
trace, is the same as with the field removed. -/
theorem C10_preset_ignores_image_url (cfg : Config) (env : Env)
    (cmd : SendCommand) (h : truthyOptStr cmd.preset = true) :
    handleSend cfg env cmd = handleSend cfg env (dropImageUrl cmd) := by
  have hrc : resolveContent cfg (dropImageUrl cmd) = resolveContent cfg cmd := by
    unfold resolveContent dropImageUrl
    simp [h]
  unfold handleSend
  rw [hrc]
  dsimp only [dropImageUrl]

/-- Claim C10, witness at the spec's preset scenario. -/
theorem C10_witness :
    handleSend cfgA envA cmdWelcome =
      handleSend cfgA envA (dropImageUrl cmdWelcome) :=
  C10_preset_ignores_image_url cfgA envA cmdWelcome rfl

end FirebasePush
